import Mathlib

/-!
Shallow embedding of `src/src-tauri/src/search/deltas.rs` (gitbutler's
delta search core): the Version Ledger (`MetaStorage`), the per-session
indexer (`index_session` / `Deltas::index_session`), the reindex walk
(`Deltas::reindex_project`), the change extractor (word diff flattening
in `index_delta`), and the query path (`search`).

External collaborators (the `similar` diff crate, the `tantivy` index
engine, the storage blob store, the git history backend) are not part of
the repository; where their behaviour decides a claim they are modelled
from the spec, and each such definition says so in its doc comment.
Machine integers (`u64`) are modelled as `Nat`; the only operation whose
overflow behaviour matters is `str::parse::<u64>`, which rejects values
`>= 2^64`, and that bound is explicit in `parseU64`.
-/

/-- `CURRENT_VERSION: u64 = 3` from deltas.rs ("should not decrease"). -/
def CURRENT_VERSION : Nat := 3

/-- Rust ASCII digit test, used to model `str::parse::<u64>`. -/
def isAsciiDigit (c : Char) : Bool := '0' ≤ c && c ≤ '9'

/-- Numeric value of a digit string (most significant first). -/
def digitsVal (cs : List Char) : Nat :=
  cs.foldl (fun acc c => acc * 10 + (c.toNat - '0'.toNat)) 0

/-- Modelled from Rust's `str::parse::<u64>`: an optional leading `+`,
then one or more ASCII digits, value below `2^64`; anything else fails
(`.ok()` in `MetaStorage::get` turns the failure into `None`). -/
def parseU64 (s : String) : Option Nat :=
  let cs := match s.data with
    | '+' :: rest => rest
    | cs => cs
  if cs.isEmpty then none
  else if cs.all isAsciiDigit then
    let v := digitsVal cs
    if v < 2 ^ 64 then some v else none
  else none

/-- Modelled from the spec: the durable key/value blob store
(`storage::Storage`, external to src/): `read(key) -> Option<string>`,
`write(key, value)` with per-key overwrite. `MetaStorage` keys the store
by the path `indexes/meta/<project_id>/<session_hash>`, which we model
directly as the pair `(project_id, session_hash)`. -/
def MetaStore : Type := (String × String) → Option String

/-- `storage.write` (overwrite semantics). -/
def storeWrite (m : MetaStore) (k : String × String) (v : String) : MetaStore :=
  fun k' => if k' = k then some v else m k'

/-- `MetaStorage::get`: read the raw value and parse it with
`meta.parse::<u64>().ok()` — an unparsable value becomes `None`. -/
def metaGet (m : MetaStore) (project_id session_hash : String) : Option Nat :=
  match m (project_id, session_hash) with
  | none => none
  | some raw => parseU64 raw

/-- `MetaStorage::set`: write `version.to_string()` for the key. -/
def metaSet (m : MetaStore) (project_id session_hash : String) (version : Nat) : MetaStore :=
  storeWrite m (project_id, session_hash) (toString version)

/-! ## Change extractor

`index_delta` computes `TextDiff::from_words(old, new)` and collects
`Delete`/`Insert` tokens, dropping `Equal` ones.  The `similar` crate is
external to the repository; the word-level diff is modelled from the
spec: word tokens (whitespace-separated), a minimal (LCS-based) diff
whose ordered change list tags each token equal / delete / insert, and
flattening that keeps insert/delete tokens in their original relative
order with no separator reconstruction. -/

/-- Tag of one entry of the diff's ordered change list
(`similar::ChangeTag`). -/
inductive DiffTag : Type
  | equal : DiffTag
  | delete : DiffTag
  | insert : DiffTag
deriving DecidableEq, Repr

/-- One entry of the diff's ordered change list. -/
structure Change : Type where
  tag : DiffTag
  token : String
deriving DecidableEq, Repr

/-- Splits a character list into maximal whitespace-free runs;
`acc` holds the (reversed) characters of the word being scanned. -/
def splitWordsAux : List Char → List Char → List String
  | [], acc => if acc.isEmpty then [] else [String.mk acc.reverse]
  | c :: cs, acc =>
    if c.isWhitespace then
      if acc.isEmpty then splitWordsAux cs []
      else String.mk acc.reverse :: splitWordsAux cs []
    else splitWordsAux cs (c :: acc)

/-- Modelled from the spec: word tokenization — a token is a maximal
whitespace-free run (word granularity, smallest diff unit). -/
def splitWords (s : String) : List String :=
  splitWordsAux s.data []

/-- Length of a longest common subsequence of two token lists, with a
structural fuel argument (every recursive call shrinks the combined
length by one, so `a.length + b.length` fuel is always enough). -/
def lcsLenF : Nat → List String → List String → Nat
  | _, [], _ => 0
  | _, _ :: _, [] => 0
  | 0, _ :: _, _ :: _ => 0
  | fuel + 1, x :: xs, y :: ys =>
    if x = y then lcsLenF fuel xs ys + 1
    else max (lcsLenF fuel (x :: xs) ys) (lcsLenF fuel xs (y :: ys))

/-- Length of a longest common subsequence of two token lists. -/
def lcsLen (a b : List String) : Nat :=
  lcsLenF (a.length + b.length) a b

/-- Fuelled worker for `diffTokens` (the fuel is always sufficient for
`a.length + b.length`, since each call shrinks the combined length). -/
def diffTokensF : Nat → List String → List String → List Change
  | _, [], ys => ys.map (fun y => ⟨DiffTag.insert, y⟩)
  | _, x :: xs, [] => (x :: xs).map (fun x => ⟨DiffTag.delete, x⟩)
  | 0, _ :: _, _ :: _ => []
  | fuel + 1, x :: xs, y :: ys =>
    if x = y then ⟨DiffTag.equal, x⟩ :: diffTokensF fuel xs ys
    else if lcsLen xs (y :: ys) ≥ lcsLen (x :: xs) ys then
      ⟨DiffTag.delete, x⟩ :: diffTokensF fuel xs (y :: ys)
    else
      ⟨DiffTag.insert, y⟩ :: diffTokensF fuel (x :: xs) ys

/-- Modelled from the spec: a minimal ordered diff of two token lists —
common tokens are tagged `equal`, tokens only in the old list `delete`,
tokens only in the new list `insert`, all in their original relative
order (deletions emitted before insertions at a divergence point, as the
diff engine does). -/
def diffTokens (a b : List String) : List Change :=
  diffTokensF (a.length + b.length) a b

/-- The `filter_map` arm of `index_delta`: keep `Delete` and `Insert`
tokens (`change.as_str()`), drop `Equal` ones (`None`). -/
def keepChange (c : Change) : Option String :=
  match c.tag with
  | DiffTag.delete => some c.token
  | DiffTag.insert => some c.token
  | DiffTag.equal => none

/-- The flattened change string `index_delta` stores in the `diff`
field: the diff's ordered change list filtered to insert/delete tokens
and concatenated (`.collect::<String>()`). -/
def flattenedChanges (before after : String) : String :=
  String.join ((diffTokens (splitWords before) (splitWords after)).filterMap keepChange)

/-- Substring test helper (needle occurs contiguously in haystack),
used to state the spec's contains/omits examples. -/
def startsWithChars : List Char → List Char → Bool
  | [], _ => true
  | _ :: _, [] => false
  | c :: cs, d :: ds => c = d && startsWithChars cs ds

/-- Whether `sub` occurs as a contiguous substring of `s`. -/
def strContains (s sub : String) : Bool :=
  go s.data
where
  go : List Char → Bool
    | [] => sub.data.isEmpty
    | c :: cs => startsWithChars sub.data (c :: cs) || go cs

/-! ## Replay, documents, writer, indexer -/

/-- Modelled from the spec (the `deltas` module is external to src/):
one text operation of a delta — insert-at-offset or delete-range over a
character buffer; an out-of-range offset is an inapplicable-operation
error and replay aborts. -/
inductive Operation : Type
  | insertAt : Nat → List Char → Operation
  | deleteRange : Nat → Nat → Operation
deriving DecidableEq, Repr

/-- `operation.apply(&mut file_text)`: apply one operation to the
buffer, failing on an out-of-range reference. -/
def Operation.apply : Operation → List Char → Except String (List Char)
  | Operation.insertAt off text, buf =>
    if off ≤ buf.length then Except.ok (buf.take off ++ text ++ buf.drop off)
    else Except.error "inapplicable operation"
  | Operation.deleteRange off len, buf =>
    if off + len ≤ buf.length then Except.ok (buf.take off ++ buf.drop (off + len))
    else Except.error "inapplicable operation"

/-- Apply a delta's operations in order (the `for operation in
&delta.operations` loop of `index_delta`); the first failure aborts. -/
def applyOps : List Operation → List Char → Except String (List Char)
  | [], buf => Except.ok buf
  | op :: ops, buf =>
    match op.apply buf with
    | Except.ok buf' => applyOps ops buf'
    | Except.error e => Except.error e

/-- One recorded edit event (`deltas::Delta`): a millisecond timestamp
and an ordered operation list. -/
structure Delta : Type where
  timestamp_ms : Nat
  operations : List Operation
deriving DecidableEq, Repr

/-- One field value of a tantivy document (`add_u64` / `add_text` /
`add_bool`). -/
inductive FieldValue : Type
  | u64 : Nat → FieldValue
  | text : String → FieldValue
  | boolean : Bool → FieldValue
deriving DecidableEq, Repr

/-- A tantivy document: the ordered list of (field name, value) pairs
added to it. -/
structure Doc : Type where
  fields : List (String × FieldValue)
deriving DecidableEq, Repr

/-- `get_first` on a document: the first value added for the field. -/
def docField (d : Doc) (f : String) : Option FieldValue :=
  (d.fields.find? (fun kv => kv.1 == f)).map (fun kv => kv.2)

/-- `get_first(..).as_u64()`. -/
def docU64 (d : Doc) (f : String) : Option Nat :=
  match docField d f with
  | some (FieldValue.u64 n) => some n
  | _ => none

/-- `get_first(..).as_text()`. -/
def docText (d : Doc) (f : String) : Option String :=
  match docField d f with
  | some (FieldValue.text s) => some s
  | _ => none

/-- The document `index_delta` builds for one delta, with fields in the
order the code adds them: version, index, session_id, file_path,
project_id, timestamp_ms and finally the flattened diff text.  The
schema's `is_addition` / `is_deletion` fields are never added by
`index_delta`. -/
def mkDoc (project_id session_id file_path : String) (i : Nat) (timestamp_ms : Nat)
    (diffText : String) : Doc :=
  ⟨[("version", FieldValue.u64 CURRENT_VERSION),
    ("index", FieldValue.u64 i),
    ("session_id", FieldValue.text session_id),
    ("file_path", FieldValue.text file_path),
    ("project_id", FieldValue.text project_id),
    ("timestamp_ms", FieldValue.u64 timestamp_ms),
    ("diff", FieldValue.text diffText)]⟩

/-- Modelled from the spec: the tantivy `IndexWriter` shared by all
sessions — `add_document` appends to a pending batch, `commit`
atomically publishes the whole pending batch to the committed
(searchable) generation and clears it; the code never rolls the pending
batch back. -/
structure IndexWriter : Type where
  pending : List Doc
  committed : List Doc
deriving DecidableEq, Repr

/-- `writer.add_document(doc)`. -/
def IndexWriter.addDocument (w : IndexWriter) (d : Doc) : IndexWriter :=
  { w with pending := w.pending ++ [d] }

/-- `writer.commit()`: on success publish every pending document
atomically; on failure nothing becomes visible and the pending batch is
unchanged.  Whether the commit succeeds is decided by the engine
(environment flag `ok`). -/
def IndexWriter.commitRun (w : IndexWriter) (ok : Bool) : Except String Unit × IndexWriter :=
  if ok then (Except.ok (), ⟨[], w.committed ++ w.pending⟩)
  else (Except.error "commit failed", w)

/-- Outcomes of the external calls one `index_session` run makes, an
input to the model: the history backend's `deltas::list` and
`sessions::list_files` results, and whether the engine commit and the
ledger write succeed. -/
structure SessionEnv : Type where
  listResult : Except String (List (String × List Delta))
  filesResult : Except String (List (String × String))
  commitOk : Bool
  setOk : Bool

/-- The per-file inner loop of `index_session`: thread the file text
through the delta sequence (replay), and for each replayed delta add
one document (`index_delta`).  On a replay failure the error is
returned and the documents already added stay in the pending batch (the
Rust writer is mutated in place). -/
def indexFileDeltas (project_id session_id file_path : String) :
    List Delta → List Char → Nat → IndexWriter → Except String Unit × IndexWriter
  | [], _, _, w => (Except.ok (), w)
  | d :: ds, text, i, w =>
    match applyOps d.operations text with
    | Except.error e => (Except.error e, w)
    | Except.ok newText =>
      let diffText := flattenedChanges (String.mk text) (String.mk newText)
      let w' := w.addDocument (mkDoc project_id session_id file_path i d.timestamp_ms diffText)
      indexFileDeltas project_id session_id file_path ds newText (i + 1) w'

/-- The `for (file_path, deltas) in deltas.into_iter()` loop: each
file's starting text comes from `files.get(&file_path)`, defaulting to
the empty string. -/
def indexFiles (project_id session_id : String) (files : List (String × String)) :
    List (String × List Delta) → IndexWriter → Except String Unit × IndexWriter
  | [], w => (Except.ok (), w)
  | (file_path, ds) :: rest, w =>
    let text := (((files.find? (fun kv => kv.1 == file_path)).map (fun kv => kv.2)).getD "").data
    match indexFileDeltas project_id session_id file_path ds text 0 w with
    | (Except.error e, w') => (Except.error e, w')
    | (Except.ok _, w') => indexFiles project_id session_id files rest w'

/-- The free function `index_session` of deltas.rs: list the session's
deltas (empty list → return `Ok(())` at once, no commit), list the
files, index every file's deltas, then `writer.commit()`.  Errors leave
the writer exactly as the failed run left it (documents added before the
failure remain pending). -/
def index_session_model (env : SessionEnv) (project_id session_id : String) (w : IndexWriter) :
    Except String Unit × IndexWriter :=
  match env.listResult with
  | Except.error e => (Except.error e, w)
  | Except.ok ds =>
    if ds.isEmpty then (Except.ok (), w)
    else
      match env.filesResult with
      | Except.error e => (Except.error e, w)
      | Except.ok files =>
        match indexFiles project_id session_id files ds w with
        | (Except.error e, w') => (Except.error e, w')
        | (Except.ok _, w') => w'.commitRun env.commitOk

/-- The mutable state of a `Deltas` value that this core owns: the
Version Ledger contents and the shared index writer. -/
structure DeltasState : Type where
  meta : MetaStore
  writer : IndexWriter

/-- `Deltas::index_session`: run the free `index_session`, and only if
it returned `Ok` write `CURRENT_VERSION` into the Version Ledger for
`(project.id, session.id)` (`meta_storage.set`, which can itself fail
when `env.setOk` is false).  Every error is returned with the state the
run actually left behind. -/
def deltasIndexSession (env : SessionEnv) (project_id session_id : String)
    (st : DeltasState) : Except String Unit × DeltasState :=
  match index_session_model env project_id session_id st.writer with
  | (Except.error e, w') => (Except.error e, ⟨st.meta, w'⟩)
  | (Except.ok _, w') =>
    if env.setOk then
      (Except.ok (), ⟨metaSet st.meta project_id session_id CURRENT_VERSION, w'⟩)
    else (Except.error "ledger write failed", ⟨st.meta, w'⟩)

/-- One session of a `reindex_project` walk, together with the outcomes
of the external calls made for it: `lookupFail` models a failure of the
revwalk item / `find_commit` / `id_from_commit` steps, `getIoFail` a
storage I/O failure inside `meta_storage.get`, `fromCommitFail` a
`sessions::Session::from_commit` (malformed session) failure. -/
structure WalkSession : Type where
  sid : String
  lookupFail : Bool
  getIoFail : Bool
  fromCommitFail : Bool
  env : SessionEnv

/-- `Deltas::reindex_project`, following the code's control flow for
each walked commit: the `?` operators on the commit lookup, on
`meta_storage.get` and on `Session::from_commit` abort the whole walk,
a version equal to `CURRENT_VERSION` skips the session
(`get(..)?.unwrap_or(0)`), and an `index_session` error is only logged
(`if let Err(e) = ... log::error!`) before continuing. -/
def reindexProject (project_id : String) :
    List WalkSession → DeltasState → Except String Unit × DeltasState
  | [], st => (Except.ok (), st)
  | ws :: rest, st =>
    if ws.lookupFail then (Except.error "could not find commit", st)
    else if ws.getIoFail then (Except.error "ledger read failed", st)
    else
      let version := (metaGet st.meta project_id ws.sid).getD 0
      if version = CURRENT_VERSION then reindexProject project_id rest st
      else if ws.fromCommitFail then (Except.error "could not parse commit", st)
      else
        match deltasIndexSession ws.env project_id ws.sid st with
        | (_, st') => reindexProject project_id rest st'

/-- One ledger-touching operation of this core, for stating properties
over arbitrary operation sequences: a reindex walk, a direct
`Deltas::index_session` call, or a ledger read (`MetaStorage::get`,
which never writes). -/
inductive CoreOp : Type
  | doReindex : String → List WalkSession → CoreOp
  | doIndexSession : String → String → SessionEnv → CoreOp
  | doGet : String → String → CoreOp

/-- Run one core operation, keeping only the state (results are
irrelevant to ledger evolution). -/
def runOp (st : DeltasState) : CoreOp → DeltasState
  | CoreOp.doReindex pid walk => (reindexProject pid walk st).2
  | CoreOp.doIndexSession pid sid env => (deltasIndexSession env pid sid st).2
  | CoreOp.doGet _ _ => st

/-- Run a sequence of core operations. -/
def runOps (st : DeltasState) (ops : List CoreOp) : DeltasState :=
  ops.foldl runOp st

/-! ## Query engine

`search` builds the query string `version:"3" AND project_id:".."
AND timestamp_ms:[start TO end} AND (q)` and hands it to tantivy's
query parser; execution, ranking and snippets are the external index
engine.  Modelled from the spec: the boolean query is the conjunction
of an exact match on `version = CURRENT_VERSION`, an exact match on
`project_id`, a half-open range filter on `timestamp_ms`, and the
user's free-text query parsed against the `diff` and `file_path`
fields (modelled as an arbitrary predicate over those two fields);
results are ordered by `timestamp_ms`, offset and limited, and each
hit is rebuilt from the document's stored fields plus highlighted
snippet fragments over the stored `diff` text (modelled as an
arbitrary fragment function). -/

/-- One search request (`SearchQuery` plus the modelled engine
capabilities: the free-text match predicate and the snippet
highlighter). -/
structure SearchQueryM : Type where
  userMatch : String → String → Bool
  highlighter : String → List String
  project_id : String
  limit : Nat
  offset : Option Nat
  rstart : Nat
  rend : Nat

/-- The half-open `timestamp_ms:[start TO end}` range filter. -/
def inRange (q : SearchQueryM) (d : Doc) : Bool :=
  match docU64 d "timestamp_ms" with
  | some ts => decide (q.rstart ≤ ts ∧ ts < q.rend)
  | none => false

/-- Whether a committed document matches the built boolean query. -/
def matchesQuery (q : SearchQueryM) (d : Doc) : Bool :=
  decide (docU64 d "version" = some CURRENT_VERSION)
    && decide (docText d "project_id" = some q.project_id)
    && inRange q d
    && q.userMatch ((docText d "diff").getD "") ((docText d "file_path").getD "")

/-- Ranking key: the document's `timestamp_ms` fast field. -/
def tsOf (d : Doc) : Nat := (docU64 d "timestamp_ms").getD 0

/-- Insert a document into a list sorted by descending timestamp. -/
def insertDoc (d : Doc) : List Doc → List Doc
  | [] => [d]
  | x :: xs => if tsOf x ≤ tsOf d then d :: x :: xs else x :: insertDoc d xs

/-- Sort documents by descending `timestamp_ms`
(`TopDocs...order_by_u64_field("timestamp_ms")`). -/
def sortByTsDesc : List Doc → List Doc
  | [] => []
  | d :: ds => insertDoc d (sortByTsDesc ds)

/-- One search hit, rebuilt from the document's stored fields exactly as
the result loop of `search` does (`project_id`, `file_path`,
`session_id`, `index`, plus the highlighted snippet fragments over the
stored `diff` text). -/
structure SearchResult : Type where
  project_id : String
  session_id : String
  file_path : String
  index : Nat
  highlighted : List String
deriving DecidableEq, Repr

/-- Build the `SearchResult` for one retrieved document. -/
def mkResult (highlighter : String → List String) (d : Doc) : SearchResult :=
  { project_id := (docText d "project_id").getD ""
    session_id := (docText d "session_id").getD ""
    file_path := (docText d "file_path").getD ""
    index := (docU64 d "index").getD 0
    highlighted := highlighter ((docText d "diff").getD "") }

/-- The `search` function over the committed (searchable) documents:
filter by the boolean query, rank by descending timestamp, apply offset
and limit (`TopDocs::with_limit(limit).and_offset(offset)`), and map
each hit to its `SearchResult`. -/
def searchModel (committed : List Doc) (q : SearchQueryM) : List SearchResult :=
  (((sortByTsDesc (committed.filter (matchesQuery q))).drop (q.offset.getD 0)).take
      q.limit).map (mkResult q.highlighter)

/-! ## Helper lemmas -/

theorem mem_insertDoc {a d : Doc} : ∀ {l : List Doc}, a ∈ insertDoc d l ↔ a = d ∨ a ∈ l := by
  intro l
  induction l with
  | nil => simp [insertDoc]
  | cons x xs ih =>
    by_cases h : tsOf x ≤ tsOf d
    · simp [insertDoc, h]
    · simp only [insertDoc, if_neg h, List.mem_cons, ih]
      tauto

theorem mem_sortByTsDesc {a : Doc} : ∀ {l : List Doc}, a ∈ sortByTsDesc l ↔ a ∈ l := by
  intro l
  induction l with
  | nil => simp [sortByTsDesc]
  | cons d ds ih => simp [sortByTsDesc, mem_insertDoc, ih]

/-- Any result of `searchModel` comes from a committed document that
matches the boolean query. -/
theorem searchModel_sound {committed : List Doc} {q : SearchQueryM} {r : SearchResult}
    (h : r ∈ searchModel committed q) :
    ∃ d : Doc, d ∈ committed ∧ matchesQuery q d = true ∧ r = mkResult q.highlighter d := by
  rcases List.mem_map.mp h with ⟨d, hd, hr⟩
  have hd' : d ∈ sortByTsDesc (committed.filter (matchesQuery q)) :=
    List.drop_subset _ _ (List.take_subset _ _ hd)
  have hd'' : d ∈ committed.filter (matchesQuery q) := mem_sortByTsDesc.mp hd'
  rcases List.mem_filter.mp hd'' with ⟨hmem, hmatch⟩
  exact ⟨d, hmem, hmatch, hr.symm⟩

/-- Whether a `Result` is an `Err`. -/
def isErr {α : Type} : Except String α → Bool
  | Except.error _ => true
  | Except.ok _ => false

theorem indexFileDeltas_committed (p s f : String) :
    ∀ (ds : List Delta) (text : List Char) (i : Nat) (w : IndexWriter),
      (indexFileDeltas p s f ds text i w).2.committed = w.committed := by
  intro ds
  induction ds with
  | nil => intro text i w; rfl
  | cons d ds ih =>
    intro text i w
    unfold indexFileDeltas
    cases h : applyOps d.operations text with
    | error e => simp [h]
    | ok newText => simp [h, ih, IndexWriter.addDocument]

theorem indexFiles_committed (p s : String) (files : List (String × String)) :
    ∀ (ds : List (String × List Delta)) (w : IndexWriter),
      (indexFiles p s files ds w).2.committed = w.committed := by
  intro ds
  induction ds with
  | nil => intro w; rfl
  | cons fd rest ih =>
    intro w
    rcases fd with ⟨fp, fds⟩
    unfold indexFiles
    rcases hfile : indexFileDeltas p s fp fds
        ((((files.find? (fun kv => kv.1 == fp)).map (fun kv => kv.2)).getD "").data) 0 w
      with ⟨res, w'⟩
    have hcommitted : w'.committed = w.committed := by
      have := indexFileDeltas_committed p s fp fds
        ((((files.find? (fun kv => kv.1 == fp)).map (fun kv => kv.2)).getD "").data) 0 w
      rw [hfile] at this
      exact this
    cases res with
    | error e => simp only [hfile]; exact hcommitted
    | ok u => simp only [hfile]; rw [ih w', hcommitted]

/-- A failed `index_session` run publishes nothing: the committed
generation is exactly what it was before the call (documents it added
are only pending). -/
theorem index_session_model_error_committed (env : SessionEnv) (p s : String)
    (w : IndexWriter) (h : isErr (index_session_model env p s w).1 = true) :
    (index_session_model env p s w).2.committed = w.committed := by
  unfold index_session_model at h ⊢
  cases hl : env.listResult with
  | error e => simp [hl]
  | ok ds =>
    simp only [hl] at h ⊢
    by_cases hempty : ds.isEmpty
    · simp [hempty, isErr] at h
    · simp only [hempty, if_false, Bool.false_eq_true] at h ⊢
      cases hf : env.filesResult with
      | error e => simp [hf]
      | ok files =>
        simp only [hf] at h ⊢
        rcases hidx : indexFiles p s files ds w with ⟨res, w'⟩
        have hcommitted : w'.committed = w.committed := by
          have := indexFiles_committed p s files ds w
          rw [hidx] at this
          exact this
        cases res with
        | error e => simp only [hidx]; exact hcommitted
        | ok u =>
          simp only [hidx] at h ⊢
          unfold IndexWriter.commitRun at h ⊢
          by_cases hcommit : env.commitOk
          · rw [hcommit] at h
            simp [isErr] at h
          · simp only [hcommit, Bool.false_eq_true, if_false]
            exact hcommitted

/-- `Deltas::index_session` either leaves the ledger untouched or writes
exactly `CURRENT_VERSION` for its own `(project, session)` key. -/
theorem deltasIndexSession_meta (env : SessionEnv) (p s : String) (st : DeltasState) :
    (deltasIndexSession env p s st).2.meta = st.meta ∨
    (deltasIndexSession env p s st).2.meta = metaSet st.meta p s CURRENT_VERSION := by
  unfold deltasIndexSession
  rcases h : index_session_model env p s st.writer with ⟨res, w'⟩
  cases res with
  | error e => simp
  | ok u => by_cases hs : env.setOk <;> simp [hs]

/-- Ledger evolution relation used for monotonicity: every key whose
recorded version is at most `CURRENT_VERSION` does not decrease and
stays at most `CURRENT_VERSION`. -/
def LedgerMono (m m' : MetaStore) : Prop :=
  ∀ pid sid, (metaGet m pid sid).getD 0 ≤ CURRENT_VERSION →
    (metaGet m pid sid).getD 0 ≤ (metaGet m' pid sid).getD 0 ∧
    (metaGet m' pid sid).getD 0 ≤ CURRENT_VERSION

theorem ledgerMono_refl (m : MetaStore) : LedgerMono m m :=
  fun _ _ h => ⟨Nat.le_refl _, h⟩

theorem ledgerMono_trans {m₁ m₂ m₃ : MetaStore}
    (h₁ : LedgerMono m₁ m₂) (h₂ : LedgerMono m₂ m₃) : LedgerMono m₁ m₃ := by
  intro pid sid h
  rcases h₁ pid sid h with ⟨hle, hbound⟩
  rcases h₂ pid sid hbound with ⟨hle', hbound'⟩
  exact ⟨Nat.le_trans hle hle', hbound'⟩

theorem parseU64_current : parseU64 (toString CURRENT_VERSION) = some CURRENT_VERSION := by
  decide

theorem metaGet_metaSet_current (m : MetaStore) (p s pid sid : String) :
    metaGet (metaSet m p s CURRENT_VERSION) pid sid =
      if (pid, sid) = (p, s) then some CURRENT_VERSION else metaGet m pid sid := by
  unfold metaGet metaSet storeWrite
  by_cases h : (pid, sid) = (p, s)
  · simp [h, parseU64_current]
  · simp [h]

theorem ledgerMono_metaSet_current (m : MetaStore) (p s : String) :
    LedgerMono m (metaSet m p s CURRENT_VERSION) := by
  intro pid sid h
  rw [metaGet_metaSet_current]
  by_cases heq : (pid, sid) = (p, s)
  · simp [heq, Option.getD]
    exact h
  · simp only [heq, if_false]
    exact ⟨Nat.le_refl _, h⟩

theorem deltasIndexSession_ledgerMono (env : SessionEnv) (p s : String) (st : DeltasState) :
    LedgerMono st.meta (deltasIndexSession env p s st).2.meta := by
  rcases deltasIndexSession_meta env p s st with h | h
  · rw [h]; exact ledgerMono_refl _
  · rw [h]; exact ledgerMono_metaSet_current _ _ _

theorem reindexProject_ledgerMono (pid : String) :
    ∀ (walk : List WalkSession) (st : DeltasState),
      LedgerMono st.meta (reindexProject pid walk st).2.meta := by
  intro walk
  induction walk with
  | nil => intro st; exact ledgerMono_refl _
  | cons ws rest ih =>
    intro st
    unfold reindexProject
    by_cases h1 : ws.lookupFail
    · simp only [h1, if_true]; exact ledgerMono_refl _
    · simp only [h1, Bool.false_eq_true, if_false]
      by_cases h2 : ws.getIoFail
      · simp only [h2, if_true]; exact ledgerMono_refl _
      · simp only [h2, Bool.false_eq_true, if_false]
        by_cases h3 : (metaGet st.meta pid ws.sid).getD 0 = CURRENT_VERSION
        · simp only [h3, if_pos rfl]
          exact ih st
        · simp only [if_neg h3]
          by_cases h4 : ws.fromCommitFail
          · simp only [h4, if_true]; exact ledgerMono_refl _
          · simp only [h4, Bool.false_eq_true, if_false]
            exact ledgerMono_trans (deltasIndexSession_ledgerMono ws.env pid ws.sid st)
              (ih _)

theorem runOp_ledgerMono (st : DeltasState) (op : CoreOp) :
    LedgerMono st.meta (runOp st op).meta := by
  cases op with
  | doReindex pid walk => exact reindexProject_ledgerMono pid walk st
  | doIndexSession pid sid env => exact deltasIndexSession_ledgerMono env pid sid st
  | doGet pid sid => exact ledgerMono_refl _

theorem runOps_ledgerMono : ∀ (ops : List CoreOp) (st : DeltasState),
    LedgerMono st.meta (runOps st ops).meta := by
  intro ops
  induction ops with
  | nil => intro st; exact ledgerMono_refl _
  | cons op rest ih =>
    intro st
    exact ledgerMono_trans (runOp_ledgerMono st op) (ih (runOp st op))

/-- One step of a walk in which no pre-index step fails: skip the
session when its recorded version is already `CURRENT_VERSION`,
otherwise run `Deltas::index_session` and keep whatever state it leaves
(its error, if any, is only logged). -/
def reindexStepOk (pid : String) (st : DeltasState) (ws : WalkSession) : DeltasState :=
  if (metaGet st.meta pid ws.sid).getD 0 = CURRENT_VERSION then st
  else (deltasIndexSession ws.env pid ws.sid st).2

/-! ## Concrete scenario constants used by witnesses and
counterexamples -/

/-- An empty Version Ledger store. -/
def emptyStore : MetaStore := fun _ => none

/-- The initial state: empty ledger, empty index. -/
def stEmpty : DeltasState := ⟨emptyStore, ⟨[], []⟩⟩

/-- A store whose only entry records version 5 (greater than
`CURRENT_VERSION`) for `("P1", "S1")`. -/
def staleStore : MetaStore := fun k => if k = ("P1", "S1") then some "5" else none

/-- A store whose only entry is an unparsable string. -/
def corruptStore : MetaStore := fun k => if k = ("P1", "S1") then some "not-a-number" else none

/-- Environment of a session with zero deltas; every external call
succeeds. -/
def envZero : SessionEnv := ⟨Except.ok [], Except.ok [], true, true⟩

/-- Environment of a session with one trivial delta on one file; every
external call succeeds. -/
def envOneDoc : SessionEnv := ⟨Except.ok [("g.txt", [⟨7, []⟩])], Except.ok [], true, true⟩

/-- Environment of a session whose first delta replays fine (adding one
document) and whose second delta is inapplicable (deleting one char of
an empty file), so `index_session` fails mid-session after the first
document was already handed to the shared writer. -/
def envFailA : SessionEnv :=
  ⟨Except.ok [("f.txt", [⟨5, []⟩, ⟨6, [Operation.deleteRange 0 1]⟩])], Except.ok [], true, true⟩

/-- Environment in which the history backend fails to list the
session's deltas. -/
def envListErr : SessionEnv := ⟨Except.error "missing commit", Except.ok [], true, true⟩

/-- A query that matches every document of project `P1` in the
timestamp range `[0, 100)`. -/
def qAll : SearchQueryM := ⟨fun _ _ => true, fun _ => [], "P1", 10, none, 0, 100⟩

/-! ## Claims -/

/-- C3: Change-extraction flattening: for every pair of before/after
texts the flattened change string is exactly the concatenation, in the
diff's original relative order, of the word-level diff tokens tagged
insert or delete, with equal tokens dropped; for before="abc def",
after="abc xyz def" the flattened string contains "xyz" and omits
"abc" and "def"; for before="hello world", after="hello" it equals
"world". -/
theorem C3_flattening :
    (∀ before after : String,
      flattenedChanges before after =
        String.join ((diffTokens (splitWords before) (splitWords after)).filterMap keepChange))
    ∧ strContains (flattenedChanges "abc def" "abc xyz def") "xyz" = true
    ∧ strContains (flattenedChanges "abc def" "abc xyz def") "abc" = false
    ∧ strContains (flattenedChanges "abc def" "abc xyz def") "def" = false
    ∧ flattenedChanges "hello world" "hello" = "world" :=
  ⟨fun _ _ => rfl, by decide, by decide, by decide, by decide⟩

/-- C6: Zero-delta sessions: when `deltas::list` returns an empty map
(and the ledger write succeeds), `Deltas::index_session` succeeds,
leaves the writer untouched (no document added, no commit), and records
`CURRENT_VERSION` in the Version Ledger for the session. -/
theorem C6_zero_deltas (env : SessionEnv) (pid sid : String) (st : DeltasState)
    (hlist : env.listResult = Except.ok []) (hset : env.setOk = true) :
    deltasIndexSession env pid sid st =
      (Except.ok (), ⟨metaSet st.meta pid sid CURRENT_VERSION, st.writer⟩)
    ∧ metaGet (metaSet st.meta pid sid CURRENT_VERSION) pid sid = some CURRENT_VERSION := by
  constructor
  · unfold deltasIndexSession index_session_model
    rw [hlist]
    simp [hset]
  · rw [metaGet_metaSet_current]
    simp

/-- Witness for C6 at a concrete zero-delta session. -/
theorem C6_witness :
    envZero.listResult = Except.ok [] ∧ envZero.setOk = true
    ∧ (deltasIndexSession envZero "P1" "S1" stEmpty =
        (Except.ok (), ⟨metaSet stEmpty.meta "P1" "S1" CURRENT_VERSION, stEmpty.writer⟩)
      ∧ metaGet (metaSet stEmpty.meta "P1" "S1" CURRENT_VERSION) "P1" "S1" =
          some CURRENT_VERSION) :=
  ⟨rfl, rfl, C6_zero_deltas envZero "P1" "S1" stEmpty rfl rfl⟩

/-- C9: the document built for a delta carries only the seven fields
`index_delta` adds — version, index, session_id, file_path, project_id,
timestamp_ms, diff — and has no `is_addition` or `is_deletion` value,
although `build_schema` declares both; the claim that every document
populates the two boolean flags fails on the code. -/
theorem C9_missing_flags :
    ((indexFileDeltas "P1" "S1" "file.txt" [⟨42, []⟩] [] 0 ⟨[], []⟩).2.pending.map
        (fun d => (d.fields.map (fun kv => kv.1),
                   docField d "is_addition", docField d "is_deletion"))) =
      [(["version", "index", "session_id", "file_path", "project_id", "timestamp_ms", "diff"],
        none, none)] := by
  decide

/-- C10: Corrupt-ledger tolerance: when the durable store holds a value
for a `(project, session)` key that does not parse as a `u64`,
`MetaStorage::get` returns `None` (session treated as never indexed)
rather than an error. -/
theorem C10_corrupt_ledger (m : MetaStore) (pid sid raw : String)
    (hread : m (pid, sid) = some raw) (hparse : parseU64 raw = none) :
    metaGet m pid sid = none := by
  unfold metaGet
  rw [hread]
  exact hparse

/-- Witness for C10 at a concrete corrupt store. -/
theorem C10_witness :
    corruptStore ("P1", "S1") = some "not-a-number"
    ∧ parseU64 "not-a-number" = none
    ∧ metaGet corruptStore "P1" "S1" = none :=
  ⟨by decide, by decide,
    C10_corrupt_ledger corruptStore "P1" "S1" "not-a-number" (by decide) (by decide)⟩

/-- C7: Project scoping: every result of a search with a given
`project_id` comes from a document whose stored `project_id` equals it,
whatever the free-text part of the query matches — the exact-match
`project_id` clause is conjoined with the user predicate. -/
theorem C7_project_scoping (committed : List Doc) (q : SearchQueryM) (r : SearchResult)
    (h : r ∈ searchModel committed q) : r.project_id = q.project_id := by
  rcases searchModel_sound h with ⟨d, _, hmatch, hr⟩
  unfold matchesQuery at hmatch
  simp only [Bool.and_eq_true, decide_eq_true_eq] at hmatch
  have hpid : docText d "project_id" = some q.project_id := hmatch.1.1.2
  rw [hr]
  unfold mkResult
  rw [hpid]
  rfl

/-- A document of project P1 used by the search witnesses. -/
def docP1 : Doc := mkDoc "P1" "S1" "file.txt" 0 5 "xyz"

/-- Witness for C7 at a concrete one-document index. -/
theorem C7_witness :
    mkResult qAll.highlighter docP1 ∈ searchModel [docP1] qAll
    ∧ (mkResult qAll.highlighter docP1).project_id = qAll.project_id :=
  ⟨by decide, C7_project_scoping [docP1] qAll (mkResult qAll.highlighter docP1) (by decide)⟩

/-- C8: Time-range correctness: every result of a search with range
`[rstart, rend)` is built from a committed document whose
`timestamp_ms` satisfies `rstart ≤ timestamp_ms < rend` (half-open
interval). -/
theorem C8_time_range (committed : List Doc) (q : SearchQueryM) (r : SearchResult)
    (h : r ∈ searchModel committed q) :
    ∃ d ts, d ∈ committed ∧ r = mkResult q.highlighter d
      ∧ docU64 d "timestamp_ms" = some ts ∧ q.rstart ≤ ts ∧ ts < q.rend := by
  rcases searchModel_sound h with ⟨d, hmem, hmatch, hr⟩
  unfold matchesQuery at hmatch
  simp only [Bool.and_eq_true, decide_eq_true_eq] at hmatch
  have hrange : inRange q d = true := hmatch.1.2
  unfold inRange at hrange
  cases hts : docU64 d "timestamp_ms" with
  | none => rw [hts] at hrange; simp at hrange
  | some ts =>
    rw [hts] at hrange
    rcases of_decide_eq_true hrange with ⟨h1, h2⟩
    exact ⟨d, ts, hmem, hr, hts, h1, h2⟩

/-- Witness for C8 at a concrete one-document index. -/
theorem C8_witness :
    mkResult qAll.highlighter docP1 ∈ searchModel [docP1] qAll
    ∧ (∃ d ts, d ∈ [docP1] ∧ mkResult qAll.highlighter docP1 = mkResult qAll.highlighter d
        ∧ docU64 d "timestamp_ms" = some ts ∧ qAll.rstart ≤ ts ∧ ts < qAll.rend) :=
  ⟨by decide, C8_time_range [docP1] qAll (mkResult qAll.highlighter docP1) (by decide)⟩

/-- C1 counterexample: session "A" fails replay after its first delta's
document was already added to the shared writer; `index_session`
returns an error and writes no ledger entry, but once session "B"
commits, a subsequent search returns A's document (session_id "A"),
so the failed session's documents do become visible. -/
theorem C1_counterexample :
    isErr (deltasIndexSession envFailA "P1" "A" stEmpty).1 = true
    ∧ metaGet (deltasIndexSession envFailA "P1" "A" stEmpty).2.meta "P1" "A" = none
    ∧ ((searchModel
          (deltasIndexSession envOneDoc "P1" "B"
            (deltasIndexSession envFailA "P1" "A" stEmpty).2).2.writer.committed
          qAll).map (fun r => r.session_id)) = ["B", "A"] := by
  decide

/-- C1 (amended): if the free `index_session` fails (replay,
history-backend or commit failure), `Deltas::index_session` returns the
error, the Version Ledger entry is not written (the ledger write comes
only after a successful commit), and the failing call itself publishes
nothing — the committed generation is unchanged; documents added before
the failure merely stay pending in the shared writer. -/
theorem C1_session_atomicity_amended (env : SessionEnv) (pid sid : String) (st : DeltasState)
    (h : isErr (index_session_model env pid sid st.writer).1 = true) :
    isErr (deltasIndexSession env pid sid st).1 = true
    ∧ (deltasIndexSession env pid sid st).2.meta = st.meta
    ∧ (deltasIndexSession env pid sid st).2.writer.committed = st.writer.committed := by
  have hc := index_session_model_error_committed env pid sid st.writer h
  unfold deltasIndexSession
  rcases hm : index_session_model env pid sid st.writer with ⟨res, w'⟩
  rw [hm] at h hc
  cases res with
  | error e => exact ⟨rfl, rfl, hc⟩
  | ok u => simp [isErr] at h

/-- Witness for C1's amended theorem: a history-backend listing
failure. -/
theorem C1_witness :
    isErr (index_session_model envListErr "P1" "S1" stEmpty.writer).1 = true
    ∧ (isErr (deltasIndexSession envListErr "P1" "S1" stEmpty).1 = true
      ∧ (deltasIndexSession envListErr "P1" "S1" stEmpty).2.meta = stEmpty.meta
      ∧ (deltasIndexSession envListErr "P1" "S1" stEmpty).2.writer.committed =
          stEmpty.writer.committed) :=
  ⟨by decide, C1_session_atomicity_amended envListErr "P1" "S1" stEmpty (by decide)⟩

/-- The aborting walk for C2's counterexample: the first session's
ledger read fails with an I/O error, the second session is perfectly
healthy. -/
def walkAbort : List WalkSession :=
  [⟨"S1", false, true, false, envZero⟩, ⟨"S2", false, false, false, envOneDoc⟩]

/-- C2 counterexample: a ledger-read I/O error on one session makes
`reindex_project` return early with an error — the healthy next session
is never visited (no document committed, no ledger entry), refuting the
claim that every per-session error is logged and the walk continues. -/
theorem C2_counterexample :
    isErr (reindexProject "P1" walkAbort stEmpty).1 = true
    ∧ (reindexProject "P1" walkAbort stEmpty).2.writer.committed = []
    ∧ metaGet (reindexProject "P1" walkAbort stEmpty).2.meta "P1" "S2" = none := by
  decide

/-- C2 (amended): only `index_session` failures are isolated: when no
commit-lookup, ledger-read or session-parse step fails, the walk always
returns `Ok` and processes every session in order (an `index_session`
error is logged and the walk continues); but a ledger-read or
session-parse (or commit-lookup) failure aborts `reindex_project`
immediately, skipping all remaining sessions. -/
theorem C2_isolation_amended (pid : String) (walk : List WalkSession) (st : DeltasState)
    (h : ∀ ws ∈ walk, ws.lookupFail = false ∧ ws.getIoFail = false
      ∧ ws.fromCommitFail = false) :
    reindexProject pid walk st = (Except.ok (), walk.foldl (reindexStepOk pid) st) := by
  induction walk generalizing st with
  | nil => rfl
  | cons ws rest ih =>
    rcases h ws (List.mem_cons_self _ _) with ⟨hl, hg, hf⟩
    have hrest : ∀ w ∈ rest, w.lookupFail = false ∧ w.getIoFail = false
        ∧ w.fromCommitFail = false :=
      fun w hw => h w (List.mem_cons_of_mem _ hw)
    unfold reindexProject
    simp only [hl, hg, hf, Bool.false_eq_true, if_false]
    rw [List.foldl_cons]
    by_cases hv : (metaGet st.meta pid ws.sid).getD 0 = CURRENT_VERSION
    · have hstep : reindexStepOk pid st ws = st := by
        unfold reindexStepOk
        rw [if_pos hv]
      rw [if_pos hv, hstep, ih st hrest]
    · rw [if_neg hv]
      rcases hsd : deltasIndexSession ws.env pid ws.sid st with ⟨r, st'⟩
      have hstep : reindexStepOk pid st ws = st' := by
        unfold reindexStepOk
        rw [if_neg hv, hsd]
      simp only [hsd]
      rw [hstep, ih st' hrest]

/-- A walk with one failing and one healthy session, used by C2's
witness. -/
def walkMixed : List WalkSession :=
  [⟨"S1", false, false, false, envListErr⟩, ⟨"S2", false, false, false, envOneDoc⟩]

/-- Witness for C2's amended theorem: the walk returns `Ok` and folds
over both sessions even though the first one's indexing fails. -/
theorem C2_witness :
    (∀ ws ∈ walkMixed, ws.lookupFail = false ∧ ws.getIoFail = false
      ∧ ws.fromCommitFail = false)
    ∧ reindexProject "P1" walkMixed stEmpty =
        (Except.ok (), walkMixed.foldl (reindexStepOk "P1") stEmpty) :=
  ⟨by decide, C2_isolation_amended "P1" walkMixed stEmpty (by decide)⟩

/-- The walk for C4's counterexample: one healthy zero-delta session
whose ledger entry already records version 5 > CURRENT_VERSION. -/
def walkStale : List WalkSession := [⟨"S1", false, false, false, envZero⟩]

/-- C4 counterexample: with version 5 recorded for ("P1","S1") and
CURRENT_VERSION = 3, the reindex walk does not skip the session
(the check is equality, not ≥) and overwrites the entry with 3 — the
recorded version decreases from 5 to 3, refuting unconditional
monotonicity. -/
theorem C4_counterexample :
    metaGet staleStore "P1" "S1" = some 5
    ∧ isErr (reindexProject "P1" walkStale ⟨staleStore, ⟨[], []⟩⟩).1 = false
    ∧ metaGet (reindexProject "P1" walkStale ⟨staleStore, ⟨[], []⟩⟩).2.meta "P1" "S1" =
        some CURRENT_VERSION
    ∧ CURRENT_VERSION < 5 := by
  decide

/-- C4 (amended): for every key whose recorded version is at most
`CURRENT_VERSION`, the recorded version never decreases across any
sequence of get / index-session / reindex operations performed by this
core (the core's only ledger write stores `CURRENT_VERSION`); a stored
version greater than `CURRENT_VERSION` is instead overwritten down to
`CURRENT_VERSION` by a reindex walk. -/
theorem C4_monotonicity_amended (ops : List CoreOp) (st : DeltasState) (pid sid : String)
    (h : (metaGet st.meta pid sid).getD 0 ≤ CURRENT_VERSION) :
    (metaGet st.meta pid sid).getD 0 ≤ (metaGet (runOps st ops).meta pid sid).getD 0 :=
  (runOps_ledgerMono ops st pid sid h).1

/-- Witness for C4's amended theorem on a concrete operation
sequence. -/
theorem C4_witness :
    (metaGet stEmpty.meta "P1" "S1").getD 0 ≤ CURRENT_VERSION
    ∧ (metaGet stEmpty.meta "P1" "S1").getD 0 ≤
        (metaGet (runOps stEmpty [CoreOp.doReindex "P1" walkStale]).meta "P1" "S1").getD 0 :=
  ⟨by decide,
    C4_monotonicity_amended [CoreOp.doReindex "P1" walkStale] stEmpty "P1" "S1" (by decide)⟩

/-- C5: Reindex idempotence: if a `reindex_project` call succeeded and
left every walked session recorded at `CURRENT_VERSION`, then running
the same walk again (ledger reads succeeding) returns `Ok` with the
state unchanged — every session is skipped before `index_session`, so
no document is added and no ledger write happens. -/
theorem C5_idempotence (pid : String) (walk : List WalkSession) (st0 st1 : DeltasState)
    (h1 : reindexProject pid walk st0 = (Except.ok (), st1))
    (h2 : ∀ ws ∈ walk, metaGet st1.meta pid ws.sid = some CURRENT_VERSION)
    (h3 : ∀ ws ∈ walk, ws.lookupFail = false ∧ ws.getIoFail = false) :
    reindexProject pid walk st1 = (Except.ok (), st1) := by
  clear h1
  induction walk with
  | nil => rfl
  | cons ws rest ih =>
    rcases h3 ws (List.mem_cons_self _ _) with ⟨hl, hg⟩
    unfold reindexProject
    simp only [hl, hg, Bool.false_eq_true, if_false]
    rw [h2 ws (List.mem_cons_self _ _)]
    simp only [Option.getD_some, if_pos rfl]
    exact ih (fun w hw => h2 w (List.mem_cons_of_mem _ hw))
      (fun w hw => h3 w (List.mem_cons_of_mem _ hw))

/-- The walk and post-state used by C5's witness: one zero-delta
session indexed from an empty ledger. -/
def walkW : List WalkSession := [⟨"S1", false, false, false, envZero⟩]

/-- The state after the first `reindex_project` call on `walkW`. -/
def st1C5 : DeltasState := ⟨metaSet stEmpty.meta "P1" "S1" CURRENT_VERSION, stEmpty.writer⟩

/-- Witness for C5 at a concrete walk: the second call is the
identity. -/
theorem C5_witness :
    reindexProject "P1" walkW stEmpty = (Except.ok (), st1C5)
    ∧ metaGet st1C5.meta "P1" "S1" = some CURRENT_VERSION
    ∧ reindexProject "P1" walkW st1C5 = (Except.ok (), st1C5) :=
  ⟨rfl, by decide,
    C5_idempotence "P1" walkW stEmpty st1C5 rfl
      (by intro ws hws
          have hws' : ws = ⟨"S1", false, false, false, envZero⟩ := by
            simpa [walkW] using hws
          subst hws'
          decide)
      (by intro ws hws
          have hws' : ws = ⟨"S1", false, false, false, envZero⟩ := by
            simpa [walkW] using hws
          subst hws'
          exact ⟨rfl, rfl⟩)⟩
